import Mathlib

/-!
# Verification of the cert-manager DonDominio webhook core

Shallow embedding of the Go sources `main.go` and `dondominio.go` of the
`cert-manager-webhook-dd` repository, together with proofs of the spec's
claims about the domain parser, the record operations, the HTTP client
wrapper and the solver adapter.

Remote HTTP interaction is modelled by an oracle (`DDApi`) giving the
response of every DonDominio endpoint, and every record operation returns,
next to its result, the list of API calls it issued, so that claims about
which calls are made (and in which order) can be stated and proved.
-/

namespace DDWebhook

/-! ## Data model (from `main.go`) -/

/-- One DNS record as returned by the provider (Go struct `Dns` in `main.go`).
The Go field `Type` is named `Typ` here because `Type` is reserved in Lean. -/
structure Dns where
  EntityID : String
  Name : String
  Typ : String
  Ttl : String
  Priority : String
  Value : String
  deriving Repr, DecidableEq

/-- Go struct `ddServiceListResponse` (`main.go`): the `dns` array of a
`/service/dnslist` response.  A Go `nil` slice and an empty slice are both
the empty list. -/
structure ddServiceListResponse where
  Dns : List Dns
  deriving Repr, DecidableEq

/-- Go struct `ddServiceList` (`main.go`), restricted to the fields the
record operations read. -/
structure ddServiceList where
  Success : Bool
  ResponseData : ddServiceListResponse
  deriving Repr, DecidableEq

/-- Go struct `ddServiceInfoResponse` (`main.go`), restricted to the field
`validateService` reads. -/
structure ddServiceInfoResponse where
  Status : String
  deriving Repr, DecidableEq

/-- Go struct `ddServiceInfo` (`main.go`), restricted to the fields the
record operations read. -/
structure ddServiceInfo where
  Success : Bool
  ResponseData : ddServiceInfoResponse
  deriving Repr, DecidableEq

/-- Go struct `ddServiceStatusParams` (`main.go`). -/
structure ddServiceStatusParams where
  ServiceName : String
  InfoType : String
  deriving Repr, DecidableEq

/-- Go struct `ddCreateServiceParams` (`main.go`). -/
structure ddCreateServiceParams where
  FieldType : String
  ServiceName : String
  Name : String
  Value : String
  deriving Repr, DecidableEq

/-- Go struct `ddServiceListParams` (`main.go`). -/
structure ddServiceListParams where
  ServiceName : String
  FilterValue : String
  deriving Repr, DecidableEq

/-- Go struct `ddDeleteServiceParams` (`main.go`). -/
structure ddDeleteServiceParams where
  ServiceName : String
  EntityId : String
  deriving Repr, DecidableEq

/-! ## The remote API oracle and call traces

`ddClient.Post url params out` is modelled by an oracle `DDApi` holding, for
each of the four endpoints used by `main.go`, the remote response (a success
payload or a transport/API error rendered as a `String`).  Every record
operation additionally returns the trace of the calls it issued, in order. -/

/-- Oracle for the remote DonDominio API: the response of each endpoint for
given request parameters.  An `Except.error` models `ddClient.Post` returning
a non-nil error; an `Except.ok` models a decoded success payload. -/
structure DDApi where
  getinfo : ddServiceStatusParams → Except String ddServiceInfo
  dnslist : ddServiceListParams → Except String ddServiceList
  dnscreate : ddCreateServiceParams → Except String ddServiceList
  dnsdelete : ddDeleteServiceParams → Except String Unit

/-- One `ddClient.Post` call issued by a record operation, tagged by the
endpoint and carrying the request parameters. -/
inductive ApiCall where
  | getinfo (p : ddServiceStatusParams)
  | dnslist (p : ddServiceListParams)
  | dnscreate (p : ddCreateServiceParams)
  | dnsdelete (p : ddDeleteServiceParams)
  deriving Repr, DecidableEq

/-- The URL constant of `main.go` that each call hits. -/
def ApiCall.url : ApiCall → String
  | .getinfo _ => "/service/getinfo"
  | .dnslist _ => "/service/dnslist"
  | .dnscreate _ => "/service/dnscreate"
  | .dnsdelete _ => "/service/dnsdelete"

/-- The delete calls of a trace, with their parameters. -/
def deleteCalls (trace : List ApiCall) : List ddDeleteServiceParams :=
  trace.filterMap fun c => match c with
    | .dnsdelete p => some p
    | _ => none

/-- The create calls of a trace, with their parameters. -/
def createCalls (trace : List ApiCall) : List ddCreateServiceParams :=
  trace.filterMap fun c => match c with
    | .dnscreate p => some p
    | _ => none

/-! ## Record operations (from `main.go`) -/

/-- Go `validateService` (`main.go`): POST `/service/getinfo` with
`infoType = "status"`; wrap a transport error; fail unless the returned
status literal is `"active"`.  Returns the result and the issued calls. -/
def validateService (api : DDApi) (domain : String) :
    Except String Unit × List ApiCall :=
  let params : ddServiceStatusParams := ⟨domain, "status"⟩
  let trace := [ApiCall.getinfo params]
  match api.getinfo params with
  | .error e =>
      (.error ("DonDominio API call failed: POST /service/getinfo - " ++ e), trace)
  | .ok serviceInfo =>
      if serviceInfo.ResponseData.Status ≠ "active" then
        (.error ("DonDominio service not deployed for domain " ++ domain), trace)
      else
        (.ok (), trace)

/-- Go `findRecords` (`main.go`): POST `/service/dnslist` filtered by the
target value; wrap a transport error; otherwise return the raw list. -/
def findRecords (api : DDApi) (domain target : String) :
    Except String ddServiceList × List ApiCall :=
  let params : ddServiceListParams := ⟨domain, target⟩
  let trace := [ApiCall.dnslist params]
  match api.dnslist params with
  | .error e =>
      (.error ("DonDominio API call failed: POST /service/dnslist - " ++ e), trace)
  | .ok serviceList => (.ok serviceList, trace)

/-- Go `deleteRecord` (`main.go`): POST `/service/dnsdelete` for the given
entity ID; wrap a transport error. -/
def deleteRecord (api : DDApi) (domain entityId : String) :
    Except String Unit × List ApiCall :=
  let params : ddDeleteServiceParams := ⟨domain, entityId⟩
  let trace := [ApiCall.dnsdelete params]
  match api.dnsdelete params with
  | .error e =>
      (.error ("DonDominio API call failed: DELETE /service/dnsdelete - " ++ e), trace)
  | .ok _ => (.ok (), trace)

/-- Go `createRecord` (`main.go`): POST `/service/dnscreate` with record name
`subDomain ++ "." ++ domain`; wrap a transport error. -/
def createRecord (api : DDApi) (domain fieldType subDomain target : String) :
    Except String ddServiceList × List ApiCall :=
  let params : ddCreateServiceParams :=
    ⟨fieldType, domain, subDomain ++ "." ++ domain, target⟩
  let trace := [ApiCall.dnscreate params]
  match api.dnscreate params with
  | .error e =>
      (.error ("DonDOminio API call failed: POST /service/dnscreate - " ++ e), trace)
  | .ok record => (.ok record, trace)

/-- Go `addTXTRecord` (`main.go`): `validateService` first, returning its
error verbatim on failure; only on success call `createRecord` and return its
error (its payload is discarded). -/
def addTXTRecord (api : DDApi) (domain subDomain target : String) :
    Except String Unit × List ApiCall :=
  let (v, t1) := validateService api domain
  match v with
  | .error e => (.error e, t1)
  | .ok _ =>
      let (c, t2) := createRecord api domain "TXT" subDomain target
      match c with
      | .error e => (.error e, t1 ++ t2)
      | .ok _ => (.ok (), t1 ++ t2)

/-- Go `removeTXTRecord` (`main.go`): `findRecords` first; if the returned
list is non-empty delete the first entry only; a missing record is a
success. -/
def removeTXTRecord (api : DDApi) (domain target : String) :
    Except String Unit × List ApiCall :=
  let (r, t1) := findRecords api domain target
  match r with
  | .error e => (.error e, t1)
  | .ok record =>
      match record.ResponseData.Dns with
      | [] => (.ok (), t1)
      | dns :: _ =>
          let (d, t2) := deleteRecord api domain dns.EntityID
          match d with
          | .error e => (.error e, t1 ++ t2)
          | .ok _ => (.ok (), t1 ++ t2)

/-! ## Concrete API oracles used by the witnesses -/

/-- A concrete DNS record for witness instantiations. -/
def testDns : Dns :=
  ⟨"entity-1", "_acme-challenge.example.com", "TXT", "300", "0", "proof-token"⟩

/-- A second concrete DNS record, sharing the name but not the value. -/
def testDns2 : Dns :=
  ⟨"entity-2", "_acme-challenge.example.com", "TXT", "300", "0", "proof-token"⟩

/-- A concrete healthy API oracle: service active, one matching record. -/
def testApi : DDApi where
  getinfo := fun _ => .ok ⟨true, ⟨"active"⟩⟩
  dnslist := fun _ => .ok ⟨true, ⟨[testDns, testDns2]⟩⟩
  dnscreate := fun _ => .ok ⟨true, ⟨[]⟩⟩
  dnsdelete := fun _ => .ok ()

/-- A concrete API oracle whose service status is not `"active"`. -/
def inactiveApi : DDApi where
  getinfo := fun _ => .ok ⟨true, ⟨"pending"⟩⟩
  dnslist := fun _ => .ok ⟨true, ⟨[]⟩⟩
  dnscreate := fun _ => .ok ⟨true, ⟨[]⟩⟩
  dnsdelete := fun _ => .ok ()

/-! ## Claim theorems: record operations -/

/-- **C1.** `removeTXTRecord` first calls `findRecords` (the trace starts
with the `/service/dnslist` call); with zero returned records it returns no
error and issues no delete call; with one or more records it issues exactly
one delete call, against the entity ID of the first record of the returned
list, and returns that delete call's result. -/
theorem removeTXTRecord_deletes_first_match_only
    (api : DDApi) (domain target : String) (sl : ddServiceList)
    (h : api.dnslist ⟨domain, target⟩ = .ok sl) :
    (removeTXTRecord api domain target).2.head? =
        some (ApiCall.dnslist ⟨domain, target⟩) ∧
    (sl.ResponseData.Dns = [] →
      removeTXTRecord api domain target =
        (.ok (), [ApiCall.dnslist ⟨domain, target⟩])) ∧
    (∀ d rest, sl.ResponseData.Dns = d :: rest →
      deleteCalls (removeTXTRecord api domain target).2 =
          [⟨domain, d.EntityID⟩] ∧
      (removeTXTRecord api domain target).1 =
          (deleteRecord api domain d.EntityID).1) := by
  cases hdns : sl.ResponseData.Dns with
  | nil =>
      simp [removeTXTRecord, findRecords, h, hdns, deleteCalls]
  | cons d rest =>
      cases hdel : api.dnsdelete ⟨domain, d.EntityID⟩ with
      | error e =>
          simp [removeTXTRecord, findRecords, deleteRecord, h, hdns, hdel,
            deleteCalls]
      | ok u =>
          simp [removeTXTRecord, findRecords, deleteRecord, h, hdns, hdel,
            deleteCalls]

/-- Witness for C1 at a concrete oracle with a two-record response: the
hypothesis holds by computation and only the first record is deleted. -/
theorem removeTXTRecord_deletes_first_match_only_witness :
    (testApi.dnslist ⟨"example.com", "proof-token"⟩ =
        .ok ⟨true, ⟨[testDns, testDns2]⟩⟩) ∧
    ((removeTXTRecord testApi "example.com" "proof-token").2.head? =
        some (ApiCall.dnslist ⟨"example.com", "proof-token"⟩) ∧
    (ddServiceListResponse.Dns ⟨[testDns, testDns2]⟩ = [] →
      removeTXTRecord testApi "example.com" "proof-token" =
        (.ok (), [ApiCall.dnslist ⟨"example.com", "proof-token"⟩])) ∧
    (∀ d rest, ddServiceListResponse.Dns ⟨[testDns, testDns2]⟩ = d :: rest →
      deleteCalls (removeTXTRecord testApi "example.com" "proof-token").2 =
          [⟨"example.com", d.EntityID⟩] ∧
      (removeTXTRecord testApi "example.com" "proof-token").1 =
          (deleteRecord testApi "example.com" d.EntityID).1)) :=
  ⟨rfl, removeTXTRecord_deletes_first_match_only testApi "example.com"
    "proof-token" ⟨true, ⟨[testDns, testDns2]⟩⟩ rfl⟩

/-- **C2.** `addTXTRecord` calls `validateService` before anything else (the
trace starts with the `/service/getinfo` call); whenever `validateService`
fails the create endpoint is never called and the validation error is
returned verbatim; in particular a non-`"active"` remote status issues zero
create calls; and a create call in the trace implies `validateService`
succeeded. -/
theorem addTXTRecord_validates_before_create
    (api : DDApi) (domain subDomain target : String) :
    (addTXTRecord api domain subDomain target).2.head? =
        some (ApiCall.getinfo ⟨domain, "status"⟩) ∧
    (∀ e, (validateService api domain).1 = .error e →
      addTXTRecord api domain subDomain target =
        (.error e, [ApiCall.getinfo ⟨domain, "status"⟩])) ∧
    (∀ si, api.getinfo ⟨domain, "status"⟩ = .ok si →
      si.ResponseData.Status ≠ "active" →
      createCalls (addTXTRecord api domain subDomain target).2 = []) ∧
    (createCalls (addTXTRecord api domain subDomain target).2 ≠ [] →
      (validateService api domain).1 = .ok ()) := by
  cases hinfo : api.getinfo ⟨domain, "status"⟩ with
  | error e =>
      simp [addTXTRecord, validateService, hinfo, createCalls]
  | ok si =>
      by_cases hst : si.ResponseData.Status = "active"
      · cases hcr : api.dnscreate ⟨"TXT", domain, subDomain ++ "." ++ domain, target⟩ with
        | error e =>
            simp [addTXTRecord, validateService, createRecord, hinfo, hst, hcr,
              createCalls]
        | ok r =>
            simp [addTXTRecord, validateService, createRecord, hinfo, hst, hcr,
              createCalls]
      · simp [addTXTRecord, validateService, hinfo, hst, createCalls]

/-- Witness for C2 at a concrete oracle whose service status is
`"pending"`: the validation error is returned verbatim and zero create
calls are issued. -/
theorem addTXTRecord_validates_before_create_witness :
    ((validateService inactiveApi "example.com").1 =
        .error "DonDominio service not deployed for domain example.com") ∧
    addTXTRecord inactiveApi "example.com" "_acme-challenge" "proof-token" =
      (.error "DonDominio service not deployed for domain example.com",
        [ApiCall.getinfo ⟨"example.com", "status"⟩]) ∧
    createCalls (addTXTRecord inactiveApi "example.com" "_acme-challenge"
        "proof-token").2 = [] :=
  ⟨rfl,
    (addTXTRecord_validates_before_create inactiveApi "example.com"
        "_acme-challenge" "proof-token").2.1
      "DonDominio service not deployed for domain example.com" rfl,
    (addTXTRecord_validates_before_create inactiveApi "example.com"
        "_acme-challenge" "proof-token").2.2.1 ⟨true, ⟨"pending"⟩⟩ rfl
      (by decide)⟩

/-- **C5.** `removeTXTRecord` passes the proof value as the list filter (the
`/service/dnslist` call with `FilterValue = target` is in the trace), and,
assuming the provider's filtered list contains only records whose value is
the proof value, every delete call it issues targets the entity ID of a
record whose value equals the proof value. -/
theorem removeTXTRecord_deletes_only_matching_value
    (api : DDApi) (domain target : String) (sl : ddServiceList)
    (h : api.dnslist ⟨domain, target⟩ = .ok sl)
    (hfilter : ∀ d ∈ sl.ResponseData.Dns, d.Value = target) :
    ApiCall.dnslist ⟨domain, target⟩ ∈ (removeTXTRecord api domain target).2 ∧
    ∀ p ∈ deleteCalls (removeTXTRecord api domain target).2,
      ∃ d ∈ sl.ResponseData.Dns, d.Value = target ∧
        p = ⟨domain, d.EntityID⟩ := by
  cases hdns : sl.ResponseData.Dns with
  | nil =>
      simp [removeTXTRecord, findRecords, h, hdns, deleteCalls]
  | cons d rest =>
      have hd : d.Value = target := hfilter d (by simp [hdns])
      cases hdel : api.dnsdelete ⟨domain, d.EntityID⟩ with
      | error e =>
          refine ⟨?_, ?_⟩
          · simp [removeTXTRecord, findRecords, deleteRecord, h, hdns, hdel]
          · intro p hp
            refine ⟨d, by simp [hdns], hd, ?_⟩
            simp [removeTXTRecord, findRecords, deleteRecord, h, hdns, hdel,
              deleteCalls] at hp
            simp [hp]
      | ok u =>
          refine ⟨?_, ?_⟩
          · simp [removeTXTRecord, findRecords, deleteRecord, h, hdns, hdel]
          · intro p hp
            refine ⟨d, by simp [hdns], hd, ?_⟩
            simp [removeTXTRecord, findRecords, deleteRecord, h, hdns, hdel,
              deleteCalls] at hp
            simp [hp]

/-- Witness for C5 at a concrete oracle: both hypotheses hold by
computation, and every issued delete call targets a record carrying the
proof value. -/
theorem removeTXTRecord_deletes_only_matching_value_witness :
    (testApi.dnslist ⟨"example.com", "proof-token"⟩ =
        .ok ⟨true, ⟨[testDns, testDns2]⟩⟩) ∧
    (∀ d ∈ (ddServiceListResponse.mk [testDns, testDns2]).Dns,
        d.Value = "proof-token") ∧
    (ApiCall.dnslist ⟨"example.com", "proof-token"⟩ ∈
        (removeTXTRecord testApi "example.com" "proof-token").2 ∧
    ∀ p ∈ deleteCalls (removeTXTRecord testApi "example.com" "proof-token").2,
      ∃ d ∈ (ddServiceListResponse.mk [testDns, testDns2]).Dns,
        d.Value = "proof-token" ∧ p = ⟨"example.com", d.EntityID⟩) :=
  ⟨rfl, by decide,
    removeTXTRecord_deletes_only_matching_value testApi "example.com"
      "proof-token" ⟨true, ⟨[testDns, testDns2]⟩⟩ rfl (by decide)⟩

/-! ## HTTP client (from `dondominio.go`) -/

/-- A parsed URL, reduced to its raw text; stands for Go `*url.URL`. -/
structure URL where
  raw : String
  deriving Repr, DecidableEq

/-- Embeds the behaviour of Go `net/url.Parse` that `NewClient` depends on:
`Parse` fails only on syntactically invalid input, such as an ASCII control
character in the string, and in particular `Parse("")` succeeds with a nil
error and returns the empty URL.  (A full URL parser is not needed: the
branch in `NewClient` only asks whether the error is nil.) -/
def urlParse (s : String) : Option URL :=
  if s.data.all (fun c => 32 ≤ c.toNat) then some ⟨s⟩ else none

/-- The transport `NewClient` installs: either an `http.Transport` whose
`Proxy` is `http.ProxyURL u`, or the zero-value `http.Client` transport
(no proxy). -/
inductive Transport where
  | proxied (u : URL)
  | defaultTransport
  deriving Repr, DecidableEq

/-- Go `NewClient` (`dondominio.go`), restricted to the transport choice:
`if proxyUrl, err := url.Parse(os.Getenv("PROXY")); err == nil` installs the
proxied transport, `else` the default one.  `proxyEnv` is the value of
`os.Getenv("PROXY")` — the empty string when the variable is unset. -/
def newClientTransport (proxyEnv : String) : Transport :=
  match urlParse proxyEnv with
  | some proxyUrl => .proxied proxyUrl
  | none => .defaultTransport

/-- Go `url.Values`: a map from field name to list of values, modelled as an
association list in which `valuesSet` keeps keys unique. -/
def Values : Type := List (String × List String)

/-- Go `url.Values.Get`-style lookup of the value list bound to a key. -/
def valuesGet (vs : Values) (k : String) : Option (List String) :=
  (vs.find? (fun kv => kv.1 == k)).map (fun kv => kv.2)

/-- Go `url.Values.Set`: bind the key to the single given value, replacing
any existing binding. -/
def valuesSet (vs : Values) (k v : String) : Values :=
  (k, [v]) :: vs.filter (fun kv => !(kv.1 == k))

/-- Dropping the bindings of a different key `k'` does not change which
binding a lookup of `k` finds first. -/
theorem find_filter_ne (vs : Values) (k k' : String) (h : k ≠ k') :
    List.find? (fun kv => kv.1 == k) (vs.filter (fun kv => !(kv.1 == k'))) =
      List.find? (fun kv => kv.1 == k) vs := by
  induction vs with
  | nil => rfl
  | cons kv rest ih =>
      rw [List.filter_cons]
      cases hk' : (kv.1 == k') with
      | true =>
          have hkk : (kv.1 == k) = false := by
            rw [beq_eq_false_iff_ne]
            intro he
            exact h (he.symm.trans (beq_iff_eq.mp hk'))
          simp [hk', hkk, List.find?_cons, ih]
      | false =>
          cases hkk : (kv.1 == k) with
          | true => simp [hk', hkk, List.find?_cons]
          | false => simp [hk', hkk, List.find?_cons, ih]

/-- After `valuesSet vs k v`, looking up `k` yields exactly `[v]`. -/
theorem valuesGet_set_same (vs : Values) (k v : String) :
    valuesGet (valuesSet vs k v) k = some [v] := by
  simp [valuesGet, valuesSet, List.find?_cons]

/-- `valuesSet` leaves the binding of every other key unchanged. -/
theorem valuesGet_set_other (vs : Values) (k k' v : String) (h : k ≠ k') :
    valuesGet (valuesSet vs k' v) k = valuesGet vs k := by
  have hb : (k' == k) = false := by
    rw [beq_eq_false_iff_ne]
    exact fun he => h he.symm
  simp [valuesGet, valuesSet, List.find?_cons, hb, find_filter_ne vs k k' h]

/-- The parts of the `http.Request` built by `NewRequest` that the claims
are about. -/
structure HttpRequest where
  Method : String
  Target : String
  BodyFields : Values

/-- Go `Client.NewRequest` (`dondominio.go`): form-encode the request body
(`encodedReqBody` abstracts `encoder.Encode(reqBody, body)`, the empty map
when `reqBody` is nil), then `body.Set("apiuser", c.AppKey)` and
`body.Set("apipasswd", c.AppSecret)`, and target `endpoint ++ path`. -/
def NewRequest (appKey appSecret endpoint method path : String)
    (encodedReqBody : Values) : HttpRequest :=
  let body := valuesSet (valuesSet encodedReqBody "apiuser" appKey)
    "apipasswd" appSecret
  ⟨method, endpoint ++ path, body⟩

/-- Go `Client.getTimeDelta` (`dondominio.go`), with the `timeDelta` atomic
cell passed as explicit state (`none` when nothing was stored), `getTime`
the oracle for the remote GET `/auth/time`, and `now` the host clock at the
`time.Since` call.  Returns the result, the new cell state, and whether a
remote call was issued. -/
def getTimeDelta (getTime : Except String Int) (now : Int)
    (cache : Option Int) : Except String Int × Option Int × Bool :=
  match cache with
  | some d => (.ok d, cache, false)
  | none =>
      match getTime with
      | .error e => (.error e, none, true)
      | .ok ddTime =>
          let d := now - ddTime
          (.ok d, some d, true)

/-! ## Solver adapter (from `main.go`) -/

/-- Go `corev1.SecretKeySelector`, reduced to the fields `main.go` reads. -/
structure SecretKeySelector where
  Name : String
  Key : String
  deriving Repr, DecidableEq

/-- Go struct `ddDNSProviderConfig` (`main.go`). -/
structure ddDNSProviderConfig where
  Endpoint : String
  ApplicationKey : String
  ApplicationSecretRef : SecretKeySelector
  deriving Repr, DecidableEq

/-- Go `ddDNSProviderSolver.validate` (`main.go`): with ambient credentials
allowed no field is required; otherwise endpoint, application key and the
secret reference name must be non-empty.  `some msg` models a non-nil
error. -/
def validate (cfg : ddDNSProviderConfig) (allowAmbientCredentials : Bool) :
    Option String :=
  if allowAmbientCredentials then none
  else if cfg.Endpoint = "" then
    some "no endpoint provided in DonDominio config"
  else if cfg.ApplicationKey = "" then
    some "no application key provided in DonDominio config"
  else if cfg.ApplicationSecretRef.Name = "" then
    some "no application secret provided in DonDominio config"
  else none

/-- Go `ddDNSProviderSolver.secret` (`main.go`): an empty reference name
yields the empty secret with no cluster lookup; otherwise the cluster
lookup oracle decides (it already trims one trailing newline). -/
def secretResolve (lookup : SecretKeySelector → Except String String)
    (ref : SecretKeySelector) : Except String String :=
  if ref.Name = "" then .ok "" else lookup ref

/-- Go `ddDNSProviderSolver.ddClient` (`main.go`) after `loadConfig`:
validate, resolve the application secret, and return the exact arguments
handed to `NewClient` (endpoint, application key, application secret) — the
solver itself performs no ambient-credential loading; any such loading
happens inside `NewClient`'s own configuration step. -/
def ddClientArgs (cfg : ddDNSProviderConfig) (allowAmbientCredentials : Bool)
    (lookup : SecretKeySelector → Except String String) :
    Except String (String × String × String) :=
  match validate cfg allowAmbientCredentials with
  | some e => .error e
  | none =>
      match secretResolve lookup cfg.ApplicationSecretRef with
      | .error e => .error e
      | .ok applicationSecret =>
          .ok (cfg.Endpoint, cfg.ApplicationKey, applicationSecret)

/-! ## Claim theorems: client and solver -/

/-- **C7** (code bug evidence).  With `PROXY` unset, `os.Getenv("PROXY")`
is the empty string, `url.Parse("")` succeeds, and `NewClient` therefore
installs a proxying transport aimed at the empty URL — not the default
transport with no proxy that the spec describes. -/
theorem newClientTransport_empty_proxy_bug :
    newClientTransport "" = .proxied ⟨""⟩ ∧
    newClientTransport "" ≠ .defaultTransport := by
  constructor
  · rfl
  · intro h
    simp [newClientTransport, urlParse] at h

/-- **C8.** The body `NewRequest` builds always binds `apiuser` to the
application key and `apipasswd` to the application secret, and leaves every
other encoded request-body field unchanged. -/
theorem newRequest_injects_credentials
    (appKey appSecret endpoint method path : String)
    (encodedReqBody : Values) :
    valuesGet (NewRequest appKey appSecret endpoint method path
        encodedReqBody).BodyFields "apiuser" = some [appKey] ∧
    valuesGet (NewRequest appKey appSecret endpoint method path
        encodedReqBody).BodyFields "apipasswd" = some [appSecret] ∧
    ∀ k, k ≠ "apiuser" → k ≠ "apipasswd" →
      valuesGet (NewRequest appKey appSecret endpoint method path
        encodedReqBody).BodyFields k = valuesGet encodedReqBody k := by
  refine ⟨?_, ?_, ?_⟩
  · show valuesGet (valuesSet (valuesSet encodedReqBody "apiuser" appKey)
      "apipasswd" appSecret) "apiuser" = some [appKey]
    rw [valuesGet_set_other _ _ _ _ (by decide),
      valuesGet_set_same]
  · exact valuesGet_set_same _ _ _
  · intro k hk1 hk2
    show valuesGet (valuesSet (valuesSet encodedReqBody "apiuser" appKey)
      "apipasswd" appSecret) k = valuesGet encodedReqBody k
    rw [valuesGet_set_other _ _ _ _ hk2, valuesGet_set_other _ _ _ _ hk1]

/-- Witness for C8 at concrete credentials and a one-field encoded body:
both credential fields are present and the encoded field survives. -/
theorem newRequest_injects_credentials_witness :
    valuesGet (NewRequest "app-key" "app-secret"
        "https://simple-api.dondominio.net" "POST" "/service/dnslist"
        [("serviceName", ["example.com"])]).BodyFields "apiuser" =
      some ["app-key"] ∧
    valuesGet (NewRequest "app-key" "app-secret"
        "https://simple-api.dondominio.net" "POST" "/service/dnslist"
        [("serviceName", ["example.com"])]).BodyFields "apipasswd" =
      some ["app-secret"] ∧
    valuesGet (NewRequest "app-key" "app-secret"
        "https://simple-api.dondominio.net" "POST" "/service/dnslist"
        [("serviceName", ["example.com"])]).BodyFields "serviceName" =
      valuesGet [("serviceName", ["example.com"])] "serviceName" :=
  ⟨(newRequest_injects_credentials "app-key" "app-secret"
      "https://simple-api.dondominio.net" "POST" "/service/dnslist"
      [("serviceName", ["example.com"])]).1,
   (newRequest_injects_credentials "app-key" "app-secret"
      "https://simple-api.dondominio.net" "POST" "/service/dnslist"
      [("serviceName", ["example.com"])]).2.1,
   (newRequest_injects_credentials "app-key" "app-secret"
      "https://simple-api.dondominio.net" "POST" "/service/dnslist"
      [("serviceName", ["example.com"])]).2.2 "serviceName" (by decide)
      (by decide)⟩

/-- **C9.** The time-delta cache computes at most once and is atomic on
error: a populated cell is served without a remote call; a failed remote
call leaves the cell empty (so the next call retries the remote
computation); a successful remote call stores the delta, and every later
call — under any later oracle and clock — serves the stored delta with no
remote call. -/
theorem getTimeDelta_computes_once
    (getTime getTime2 : Except String Int) (now now2 d : Int) (e : String) :
    getTimeDelta getTime now (some d) = (.ok d, some d, false) ∧
    (getTime = .error e →
      getTimeDelta getTime now none = (.error e, none, true)) ∧
    (getTime = .error e →
      getTimeDelta getTime2 now2 (getTimeDelta getTime now none).2.1 =
        getTimeDelta getTime2 now2 none) ∧
    (∀ t, getTime = .ok t →
      getTimeDelta getTime now none = (.ok (now - t), some (now - t), true)) ∧
    (∀ t, getTime = .ok t →
      getTimeDelta getTime2 now2 (getTimeDelta getTime now none).2.1 =
        (.ok (now - t), some (now - t), false)) := by
  refine ⟨rfl, ?_, ?_, ?_, ?_⟩
  · intro h; simp [getTimeDelta, h]
  · intro h; simp [getTimeDelta, h]
  · intro t h; simp [getTimeDelta, h]
  · intro t h; simp [getTimeDelta, h]

/-- Witness for C9 at a concrete clock and oracle: a success stores the
delta and the second call serves it without a remote request; a failure
stores nothing. -/
theorem getTimeDelta_computes_once_witness :
    (Except.error "down" = (.error "down" : Except String Int) ∧
      getTimeDelta (.error "down") 100 none = (.error "down", none, true)) ∧
    ((Except.ok 30 = (.ok 30 : Except String Int)) ∧
      getTimeDelta (.ok 30) 100 none = (.ok 70, some 70, true) ∧
      getTimeDelta (.error "down") 999 (getTimeDelta (.ok 30) 100 none).2.1 =
        (.ok 70, some 70, false)) :=
  ⟨⟨rfl, (getTimeDelta_computes_once (.error "down") (.error "down") 100 999 0
      "down").2.1 rfl⟩,
   ⟨rfl, (getTimeDelta_computes_once (.ok 30) (.error "down") 100 999 0
      "down").2.2.2.1 30 rfl,
    (getTimeDelta_computes_once (.ok 30) (.error "down") 100 999 0
      "down").2.2.2.2 30 rfl⟩⟩

/-- **C10.** With ambient credentials allowed, `validate` accepts every
config (no field is required), and `ddClient` then hands `NewClient` the
possibly-empty config fields unchanged — with an empty secret reference
name it passes the empty secret with no cluster lookup. -/
theorem validate_ambient_accepts_all
    (cfg : ddDNSProviderConfig)
    (lookup : SecretKeySelector → Except String String) :
    validate cfg true = none ∧
    (∀ s, secretResolve lookup cfg.ApplicationSecretRef = .ok s →
      ddClientArgs cfg true lookup =
        .ok (cfg.Endpoint, cfg.ApplicationKey, s)) ∧
    (cfg.ApplicationSecretRef.Name = "" →
      ddClientArgs cfg true lookup =
        .ok (cfg.Endpoint, cfg.ApplicationKey, "")) := by
  refine ⟨rfl, ?_, ?_⟩
  · intro s hs
    simp [ddClientArgs, validate, hs]
  · intro hname
    simp [ddClientArgs, validate, secretResolve, hname]

/-- Witness for C10 at the all-empty config and a lookup oracle that would
fail if consulted: validation passes and `NewClient` receives the empty
fields. -/
theorem validate_ambient_accepts_all_witness :
    validate ⟨"", "", ⟨"", ""⟩⟩ true = none ∧
    ((⟨"", ""⟩ : SecretKeySelector).Name = "") ∧
    ddClientArgs ⟨"", "", ⟨"", ""⟩⟩ true (fun _ => .error "no cluster") =
      .ok ("", "", "") :=
  ⟨(validate_ambient_accepts_all ⟨"", "", ⟨"", ""⟩⟩
      (fun _ => .error "no cluster")).1,
   rfl,
   (validate_ambient_accepts_all ⟨"", "", ⟨"", ""⟩⟩
      (fun _ => .error "no cluster")).2.2 rfl⟩

/-! ## Substrings (Go `strings.Index`) -/

/-- Character-level index of the first occurrence of `needle` in `hay`:
Go `strings.Index`, with `none` for Go's `-1`. -/
def firstIndexOf : List Char → List Char → Option Nat
  | [], needle => if needle.isEmpty then some 0 else none
  | c :: rest, needle =>
    if needle.isPrefixOf (c :: rest) then some 0
    else (firstIndexOf rest needle).map (· + 1)

/-- `needle` occurs somewhere in `hay` (Go `strings.Contains`). -/
def containsSubstring (hay needle : String) : Bool :=
  (firstIndexOf hay.data needle.data).isSome

/-- An occurrence of the needle guarantees `firstIndexOf` finds one. -/
theorem firstIndexOf_isSome_of_occurrence (hay needle : List Char) (p : Nat)
    (h : needle.isPrefixOf (hay.drop p) = true) :
    (firstIndexOf hay needle).isSome = true := by
  induction hay generalizing p with
  | nil =>
      rw [List.drop_nil] at h
      have : needle = [] := List.prefix_nil.mp (List.isPrefixOf_iff_prefix.mp h)
      simp [firstIndexOf, this, List.isEmpty]
  | cons c rest ih =>
      rw [firstIndexOf]
      by_cases hpre : needle.isPrefixOf (c :: rest) = true
      · simp [hpre]
      · cases p with
        | zero =>
            rw [List.drop_zero] at h
            exact absurd h hpre
        | succ q =>
            rw [List.drop_succ_cons] at h
            rw [if_neg hpre, Option.isSome_map']
            exact ih q h

/-- The index `firstIndexOf` returns is an occurrence of the needle. -/
theorem occurrence_of_firstIndexOf (hay needle : List Char) (p : Nat)
    (h : firstIndexOf hay needle = some p) :
    needle.isPrefixOf (hay.drop p) = true := by
  induction hay generalizing p with
  | nil =>
      rw [firstIndexOf] at h
      by_cases he : needle.isEmpty
      · have : needle = [] := by
          cases needle with
          | nil => rfl
          | cons x xs => simp [List.isEmpty] at he
        simp [this, List.isPrefixOf]
      · simp [he] at h
  | cons c rest ih =>
      rw [firstIndexOf] at h
      by_cases hpre : needle.isPrefixOf (c :: rest) = true
      · rw [if_pos hpre] at h
        cases h
        simpa using hpre
      · rw [if_neg hpre] at h
        rw [Option.map_eq_some'] at h
        obtain ⟨q, hq, hpq⟩ := h
        subst hpq
        rw [List.drop_succ_cons]
        exact ih q hq

/-- A needle framed by two strings occurs in their concatenation. -/
theorem containsSubstring_append (a needle b : String) :
    containsSubstring (a ++ needle ++ b) needle = true := by
  apply firstIndexOf_isSome_of_occurrence _ _ a.data.length
  have hdata : (a ++ needle ++ b).data =
      a.data ++ (needle.data ++ b.data) := by
    rw [String.data_append, String.data_append, List.append_assoc]
  rw [hdata, List.drop_left]
  exact List.isPrefixOf_iff_prefix.mpr (List.prefix_append _ _)

/-! ## Response unmarshalling (from `dondominio.go`) -/

/-- Modelled from the spec: the structured API error payload — status code,
message, provider query identifier.  The Go `APIError` type is declared in
a repository file missing from `src/`; only its construction in
`UnmarshalResponse` is visible. -/
structure APIError where
  Code : Int
  Message : String
  QueryID : String
  deriving Repr, DecidableEq

/-- Modelled from the spec: the rendered error message of an `APIError`
"contains the remote status code and, if present, the provider
query-identifier header".  The `Error()` method of the Go type is in the
repository file missing from `src/`. -/
def APIError.render (e : APIError) : String :=
  if e.QueryID ≠ "" then
    "Error " ++ toString e.Code ++ ": " ++ e.Message ++
      " (X-Dd-QueryID: " ++ e.QueryID ++ ")"
  else
    "Error " ++ toString e.Code ++ ": " ++ e.Message

/-- The parts of a Go `*http.Response` that `UnmarshalResponse` reads.
`QueryIDHeader` is `response.Header.Get("X-Dd-QueryID")`, the empty string
when the header is absent. -/
structure HttpResponse where
  StatusCode : Int
  Body : String
  QueryIDHeader : String
  deriving Repr, DecidableEq

/-- What `UnmarshalResponse` does after reading the body: fail with an API
error, return without touching `out`, or decode the body into `out`. -/
inductive UnmarshalOutcome where
  | fail (e : APIError)
  | skip
  | decodeInto (body : String)
  deriving Repr, DecidableEq

/-- Go `Client.UnmarshalResponse` (`dondominio.go`).  `decodePayload`
abstracts `json.Unmarshal(body, apiError)`: `some msg` when the body decodes
to an error payload with message `msg`, `none` when decoding fails (then the
raw body text becomes the message).  `outIsNil` is `resType == nil`. -/
def UnmarshalResponse (decodePayload : String → Option String)
    (response : HttpResponse) (outIsNil : Bool) : UnmarshalOutcome :=
  if response.StatusCode < 200 ∨ 300 ≤ response.StatusCode then
    let apiError0 : APIError := ⟨response.StatusCode, "", ""⟩
    let apiError1 :=
      match decodePayload response.Body with
      | some msg => { apiError0 with Message := msg }
      | none => { apiError0 with Message := response.Body }
    .fail { apiError1 with QueryID := response.QueryIDHeader }
  else if response.Body.length = 0 ∨ outIsNil then .skip
  else .decodeInto response.Body

/-- The rendered message of an `APIError` contains its status code, and its
query identifier whenever that is non-empty. -/
theorem render_contains_code_and_query (e : APIError) :
    containsSubstring e.render (toString e.Code) = true ∧
    (e.QueryID ≠ "" → containsSubstring e.render e.QueryID = true) := by
  unfold APIError.render
  by_cases hq : e.QueryID ≠ ""
  · rw [if_pos hq]
    constructor
    · have : "Error " ++ toString e.Code ++ ": " ++ e.Message ++
          " (X-Dd-QueryID: " ++ e.QueryID ++ ")" =
          "Error " ++ toString e.Code ++
            (": " ++ e.Message ++ " (X-Dd-QueryID: " ++ e.QueryID ++ ")") := by
        simp [String.append_assoc]
      rw [this]
      exact containsSubstring_append _ _ _
    · intro _
      have : "Error " ++ toString e.Code ++ ": " ++ e.Message ++
          " (X-Dd-QueryID: " ++ e.QueryID ++ ")" =
          ("Error " ++ toString e.Code ++ ": " ++ e.Message ++
            " (X-Dd-QueryID: ") ++ e.QueryID ++ ")" := by
        simp [String.append_assoc]
      rw [this]
      exact containsSubstring_append _ _ _
  · rw [if_neg hq]
    refine ⟨?_, fun hq' => absurd hq' hq⟩
    have : "Error " ++ toString e.Code ++ ": " ++ e.Message =
        "Error " ++ toString e.Code ++ (": " ++ e.Message) := by
      simp [String.append_assoc]
    rw [this]
    exact containsSubstring_append _ _ _

/-- **C6.** On a response with status code outside `[200, 300)`,
`UnmarshalResponse` fails with an `APIError` carrying the response status
code, the `X-Dd-QueryID` header and the decoded payload's message (the raw
body text when decoding fails); it never decodes into `out`; and the
rendered error message contains the remote status code and, if present,
the query identifier. -/
theorem unmarshalResponse_error_branch
    (decodePayload : String → Option String) (response : HttpResponse)
    (outIsNil : Bool)
    (h : response.StatusCode < 200 ∨ 300 ≤ response.StatusCode) :
    ∃ e : APIError,
      UnmarshalResponse decodePayload response outIsNil = .fail e ∧
      e.Code = response.StatusCode ∧
      e.QueryID = response.QueryIDHeader ∧
      (∀ msg, decodePayload response.Body = some msg → e.Message = msg) ∧
      (decodePayload response.Body = none → e.Message = response.Body) ∧
      containsSubstring e.render (toString response.StatusCode) = true ∧
      (response.QueryIDHeader ≠ "" →
        containsSubstring e.render response.QueryIDHeader = true) ∧
      ∀ b, UnmarshalResponse decodePayload response outIsNil ≠
        .decodeInto b := by
  cases hdec : decodePayload response.Body with
  | none =>
      refine ⟨⟨response.StatusCode, response.Body, response.QueryIDHeader⟩,
        ?_, rfl, rfl, ?_, fun _ => rfl, ?_, ?_, ?_⟩
      · simp [UnmarshalResponse, h, hdec]
      · intro msg hmsg
        cases hmsg
      · exact (render_contains_code_and_query
          ⟨response.StatusCode, response.Body, response.QueryIDHeader⟩).1
      · exact (render_contains_code_and_query
          ⟨response.StatusCode, response.Body, response.QueryIDHeader⟩).2
      · intro b hb
        simp [UnmarshalResponse, h, hdec] at hb
  | some msg0 =>
      refine ⟨⟨response.StatusCode, msg0, response.QueryIDHeader⟩,
        ?_, rfl, rfl, ?_, ?_, ?_, ?_, ?_⟩
      · simp [UnmarshalResponse, h, hdec]
      · intro msg hmsg
        cases hmsg
        rfl
      · intro hnone
        cases hnone
      · exact (render_contains_code_and_query
          ⟨response.StatusCode, msg0, response.QueryIDHeader⟩).1
      · exact (render_contains_code_and_query
          ⟨response.StatusCode, msg0, response.QueryIDHeader⟩).2
      · intro b hb
        simp [UnmarshalResponse, h, hdec] at hb

/-- Witness for C6 at a concrete 404 response whose body fails to decode:
the error carries code, body text and query ID. -/
theorem unmarshalResponse_error_branch_witness :
    ((404 : Int) < 200 ∨ (300 : Int) ≤ 404) ∧
    (∃ e : APIError,
      UnmarshalResponse (fun _ => none) ⟨404, "not found", "qid-7"⟩ false =
        .fail e ∧
      e.Code = (404 : Int) ∧
      e.QueryID = "qid-7" ∧
      (∀ msg, (fun _ => (none : Option String)) "not found" = some msg →
        e.Message = msg) ∧
      ((fun _ => (none : Option String)) "not found" = none →
        e.Message = "not found") ∧
      containsSubstring e.render (toString (404 : Int)) = true ∧
      ("qid-7" ≠ "" → containsSubstring e.render "qid-7" = true) ∧
      ∀ b, UnmarshalResponse (fun _ => none) ⟨404, "not found", "qid-7"⟩
        false ≠ .decodeInto b) :=
  ⟨by decide,
    unmarshalResponse_error_branch (fun _ => none) ⟨404, "not found", "qid-7"⟩
      false (by decide)⟩

/-! ## Domain parser (from `main.go`)

`getDomain` and `getSubDomain` work on the characters of the FQDN, so they
are embedded over `List Char` with thin `String` wrappers. -/

/-- cert-manager `util.UnFqdn`: strip one trailing dot, if present. -/
def unFqdnChars (s : List Char) : List Char :=
  if s.getLast? = some '.' then s.dropLast else s

/-- Go `util.UnFqdn` on strings. -/
def unFqdn (s : String) : String :=
  ⟨unFqdnChars s.data⟩

/-- The scanning loop of Go `getDomain` (`main.go`):
`for ; n > 0 && i < 2; n-- { if domain[n-1] == '.' { i++ } }`,
returning the final values of `n` and `i`. -/
def getDomainLoop (domain : List Char) : Nat → Nat → Nat × Nat
  | 0, i => (0, i)
  | n + 1, i =>
    if i < 2 then
      getDomainLoop domain n (if domain.getD n ' ' = '.' then i + 1 else i)
    else (n + 1, i)

/-- The body of Go `getDomain` after `util.UnFqdn`: scan from the end for
the second dot; if found (`i == 2`) return `domain[n+1:]`, else the whole
string. -/
def gdCore (s : List Char) : List Char :=
  if (getDomainLoop s s.length 0).2 = 2 then
    s.drop ((getDomainLoop s s.length 0).1 + 1)
  else s

/-- Go `getDomain` (`main.go`) over characters. -/
def getDomainChars (fqdn : List Char) : List Char :=
  gdCore (unFqdnChars fqdn)

/-- Go `getDomain` (`main.go`). -/
def getDomain (fqdn : String) : String :=
  ⟨getDomainChars fqdn.data⟩

/-- Go `getSubDomain` (`main.go`) over characters: the part of the FQDN
before the first occurrence of `"." ++ domain`, or the
trailing-dot-stripped FQDN when there is no occurrence. -/
def getSubDomainChars (domain fqdn : List Char) : List Char :=
  match firstIndexOf fqdn ('.' :: domain) with
  | some idx => fqdn.take idx
  | none => unFqdnChars fqdn

/-- Go `getSubDomain` (`main.go`). -/
def getSubDomain (domain fqdn : String) : String :=
  ⟨getSubDomainChars domain.data fqdn.data⟩

/-! ### The spec's description of `getDomain`, for the refinement claim -/

/-- The dot-separated labels of a name (the spec's reading of `getDomain`):
splitting on every dot. -/
def splitOnDot : List Char → List (List Char)
  | [] => [[]]
  | c :: rest =>
    if c = '.' then [] :: splitOnDot rest
    else
      match splitOnDot rest with
      | [] => [[c]]
      | l :: ls => (c :: l) :: ls

/-- Joining labels back with dots. -/
def joinDots : List (List Char) → List Char
  | [] => []
  | [l] => l
  | l :: ls => l ++ '.' :: joinDots ls

/-- Modelled on the spec's words for `getDomain` (the claim's reading, to
be compared with `gdCore` from the source): with fewer than two dot
separators in the stripped string (fewer than three labels) the whole
string, otherwise the last two dot-separated labels joined by a dot. -/
def gdSpecCore (s : List Char) : List Char :=
  if (splitOnDot s).length < 3 then s
  else joinDots ((splitOnDot s).drop ((splitOnDot s).length - 2))

/-- The spec's `getDomain` on strings. -/
def getDomainSpec (fqdn : String) : String :=
  ⟨gdSpecCore (unFqdnChars fqdn.data)⟩

/-- The number of positions at which `needle` occurs in `hay`. -/
def countOccurrences (hay needle : List Char) : Nat :=
  (List.range (hay.length + 1)).countP
    (fun p => needle.isPrefixOf (hay.drop p))

/-- The nested scan that `getDomainLoop` performs, phrased on the reversed
string: consume characters until the second dot (inclusive) or the end,
returning how many characters were consumed and the final dot count. -/
def dotScan : Nat → List Char → Nat × Nat
  | i, [] => (0, i)
  | i, c :: rest =>
    if i < 2 then
      ((dotScan (if c = '.' then i + 1 else i) rest).1 + 1,
       (dotScan (if c = '.' then i + 1 else i) rest).2)
    else (0, i)

/-! ### Lemmas on `splitOnDot` and `joinDots` -/

/-- `splitOnDot` never returns the empty list of labels. -/
theorem splitOnDot_ne_nil (s : List Char) : splitOnDot s ≠ [] := by
  cases s with
  | nil => simp [splitOnDot]
  | cons c rest =>
      rw [splitOnDot]
      by_cases hc : c = '.'
      · simp [hc]
      · rw [if_neg hc]
        cases splitOnDot rest with
        | nil => simp
        | cons l ls => simp

/-- No label produced by `splitOnDot` contains a dot. -/
theorem splitOnDot_no_dots (s : List Char) :
    ∀ l ∈ splitOnDot s, ∀ c ∈ l, c ≠ '.' := by
  induction s with
  | nil =>
      intro l hl c hc
      simp [splitOnDot] at hl
      subst hl
      simp at hc
  | cons x rest ih =>
      intro l hl c hc
      rw [splitOnDot] at hl
      by_cases hx : x = '.'
      · rw [if_pos hx] at hl
        rcases List.mem_cons.mp hl with h | h
        · subst h; simp at hc
        · exact ih l h c hc
      · rw [if_neg hx] at hl
        cases hsp : splitOnDot rest with
        | nil => exact absurd hsp (splitOnDot_ne_nil rest)
        | cons l0 ls =>
            rw [hsp] at hl
            rcases List.mem_cons.mp hl with h | h
            · subst h
              rcases List.mem_cons.mp hc with h' | h'
              · subst h'; exact hx
              · exact ih l0 (by rw [hsp]; exact List.mem_cons_self _ _) c h'
            · exact ih l (by rw [hsp]; exact List.mem_cons_of_mem _ h) c hc

/-- `joinDots` of a cons with a non-empty tail. -/
theorem joinDots_cons (l : List Char) (ls : List (List Char)) (h : ls ≠ []) :
    joinDots (l :: ls) = l ++ '.' :: joinDots ls := by
  cases ls with
  | nil => exact absurd rfl h
  | cons l' ls' => rfl

/-- `joinDots` undoes `splitOnDot`. -/
theorem joinDots_splitOnDot (s : List Char) : joinDots (splitOnDot s) = s := by
  induction s with
  | nil => rfl
  | cons c rest ih =>
      rw [splitOnDot]
      by_cases hc : c = '.'
      · rw [if_pos hc]
        rw [joinDots_cons [] (splitOnDot rest) (splitOnDot_ne_nil rest)]
        rw [ih, hc]
        rfl
      · rw [if_neg hc]
        cases hsp : splitOnDot rest with
        | nil => exact absurd hsp (splitOnDot_ne_nil rest)
        | cons l ls =>
            rw [hsp] at ih
            cases ls with
            | nil =>
                have ih' : l = rest := ih
                show c :: l = c :: rest
                rw [ih']
            | cons l' ls' =>
                rw [joinDots_cons (c :: l) (l' :: ls') (by simp),
                  List.cons_append]
                rw [joinDots_cons l (l' :: ls') (by simp)] at ih
                rw [ih]

/-- `joinDots` over a list ending in two labels, with a non-empty front. -/
theorem joinDots_append_pair (Q : List (List Char)) (la lb : List Char)
    (h : Q ≠ []) :
    joinDots (Q ++ [la, lb]) = joinDots Q ++ '.' :: (la ++ '.' :: lb) := by
  induction Q with
  | nil => exact absurd rfl h
  | cons q Q' ih =>
      cases Q' with
      | nil =>
          rw [List.cons_append, List.nil_append]
          rw [joinDots_cons q [la, lb] (by simp)]
          simp [joinDots]
      | cons q0 Q'' =>
          rw [List.cons_append]
          rw [joinDots_cons q ((q0 :: Q'') ++ [la, lb]) (by simp)]
          rw [ih (by simp)]
          rw [joinDots_cons q (q0 :: Q'') (by simp)]
          simp

/-- Every list of length at least two ends in a pair. -/
theorem exists_append_pair {α : Type} (l : List α) (h : 2 ≤ l.length) :
    ∃ Q a b, l = Q ++ [a, b] ∧ Q.length = l.length - 2 := by
  cases hr : l.reverse with
  | nil =>
      rw [List.reverse_eq_nil_iff] at hr
      subst hr
      simp at h
  | cons b t =>
      cases t with
      | nil =>
          have : l.length = 1 := by
            have := congrArg List.length hr
            simpa using this
          omega
      | cons a t' =>
          refine ⟨t'.reverse, a, b, ?_, ?_⟩
          · have hl : l = (b :: a :: t').reverse := by
              rw [← hr, List.reverse_reverse]
            rw [hl]
            simp
          · have hlen := congrArg List.length hr
            simp at hlen
            simp only [List.length_reverse]
            omega

/-! ### Lemmas on `dotScan` and the loop bridge -/

/-- Once two dots were seen the scan consumes nothing further. -/
theorem dotScan_two (b : List Char) : dotScan 2 b = (0, 2) := by
  cases b with
  | nil => rfl
  | cons c rest => simp [dotScan]

/-- Scanning over dot-free characters just counts them. -/
theorem dotScan_no_dots (l : List Char) (b : List Char) (i : Nat)
    (hi : i < 2) (hl : ∀ c ∈ l, c ≠ '.') :
    dotScan i (l ++ b) = ((dotScan i b).1 + l.length, (dotScan i b).2) := by
  induction l with
  | nil => simp
  | cons c t ih =>
      have hc : ¬ c = '.' := hl c (List.mem_cons_self _ _)
      have ht : ∀ x ∈ t, x ≠ '.' := fun x hx => hl x (List.mem_cons_of_mem _ hx)
      rw [List.cons_append, dotScan]
      rw [if_pos hi, if_neg hc, ih ht]
      simp [Nat.add_assoc, Nat.add_comm 1 _]

/-- A dot seen with one dot already counted ends the scan. -/
theorem dotScan_second_dot (b : List Char) :
    dotScan 1 ('.' :: b) = (1, 2) := by
  rw [dotScan]
  simp [dotScan_two]

/-- A dot seen with no dot counted yet: consume it and continue with one. -/
theorem dotScan_first_dot (b : List Char) :
    dotScan 0 ('.' :: b) = ((dotScan 1 b).1 + 1, (dotScan 1 b).2) := by
  rw [dotScan]
  simp

/-- The indexed loop of `getDomain` equals the reversed-string scan. -/
theorem getDomainLoop_eq_dotScan (cs : List Char) :
    ∀ n, n ≤ cs.length → ∀ i,
      getDomainLoop cs n i =
        (n - (dotScan i ((cs.take n).reverse)).1,
         (dotScan i ((cs.take n).reverse)).2) := by
  intro n
  induction n with
  | zero => intro _ i; simp [getDomainLoop, dotScan]
  | succ m ih =>
      intro hn i
      have hm : m < cs.length := Nat.lt_of_succ_le hn
      have htake : (cs.take (m + 1)).reverse =
          cs.get ⟨m, hm⟩ :: (cs.take m).reverse := by
        rw [List.take_succ]
        rw [List.getElem?_eq_getElem hm]
        simp
      have hgetD : cs.getD m ' ' = cs.get ⟨m, hm⟩ := by
        simp [List.getD, List.getElem?_eq_getElem hm]
      rw [getDomainLoop, htake]
      by_cases hi : i < 2
      · rw [if_pos hi, dotScan, if_pos hi, hgetD]
        rw [ih (Nat.le_of_lt hm) (if cs.get ⟨m, hm⟩ = '.' then i + 1 else i)]
        simp only [Prod.mk.injEq]
        exact ⟨by omega, trivial⟩
      · rw [if_neg hi, dotScan, if_neg hi]
        simp

/-- With fewer than three labels (fewer than two dots) the scan never
reaches two dots, so `getDomain`'s body returns the whole string. -/
theorem gdCore_small (s : List Char) (h : (splitOnDot s).length < 3) :
    gdCore s = s := by
  have hbridge := getDomainLoop_eq_dotScan s s.length (Nat.le_refl _) 0
  rw [List.take_length] at hbridge
  have hjoin := joinDots_splitOnDot s
  have hnodot := splitOnDot_no_dots s
  have hi : (getDomainLoop s s.length 0).2 ≠ 2 := by
    rw [hbridge]
    cases hp : splitOnDot s with
    | nil => exact absurd hp (splitOnDot_ne_nil s)
    | cons l ls =>
        cases ls with
        | nil =>
            have hs : s = l := by
              rw [← hjoin, hp]
              rfl
            have hnd : ∀ c ∈ s.reverse, c ≠ '.' := by
              intro c hc
              refine hnodot l ?_ c ?_
              · rw [hp]; exact List.mem_cons_self _ _
              · rw [hs] at hc; exact List.mem_reverse.mp hc
            have hcomp := dotScan_no_dots s.reverse [] 0 (by omega) hnd
            rw [List.append_nil] at hcomp
            rw [hcomp]
            simp [dotScan]
        | cons l2 ls2 =>
            cases ls2 with
            | nil =>
                have hs : s = l ++ '.' :: l2 := by
                  rw [← hjoin, hp]
                  rfl
                have hnd1 : ∀ c ∈ l.reverse, c ≠ '.' := by
                  intro c hc
                  refine hnodot l ?_ c (List.mem_reverse.mp hc)
                  rw [hp]; exact List.mem_cons_self _ _
                have hnd2 : ∀ c ∈ l2.reverse, c ≠ '.' := by
                  intro c hc
                  refine hnodot l2 ?_ c (List.mem_reverse.mp hc)
                  rw [hp]
                  exact List.mem_cons_of_mem _ (List.mem_cons_self _ _)
                have hrev : s.reverse = l2.reverse ++ '.' :: l.reverse := by
                  rw [hs]
                  simp
                have h3 := dotScan_no_dots l.reverse [] 1 (by omega) hnd1
                rw [List.append_nil] at h3
                have h2 : dotScan 0 ('.' :: l.reverse) =
                    (l.reverse.length + 1, 1) := by
                  rw [dotScan_first_dot, h3]
                  simp [dotScan]
                have h1 := dotScan_no_dots l2.reverse ('.' :: l.reverse) 0
                  (by omega) hnd2
                rw [hrev, h1, h2]
                simp [dotScan]
            | cons l3 ls3 =>
                rw [hp] at h
                simp at h
                omega
  rw [gdCore, if_neg hi]

/-- With at least three labels, the stripped string splits as a front, a
dot, and the last two labels; `getDomain`'s body and the spec's
last-two-labels description both return those last two labels. -/
theorem gdCore_big (s : List Char) (h : ¬ (splitOnDot s).length < 3) :
    ∃ A la lb, s = A ++ '.' :: (la ++ '.' :: lb) ∧
      gdCore s = la ++ '.' :: lb ∧ gdSpecCore s = la ++ '.' :: lb := by
  have hjoin := joinDots_splitOnDot s
  have hnodot := splitOnDot_no_dots s
  obtain ⟨Q, la, lb, hQ, hQlen⟩ :=
    exists_append_pair (splitOnDot s) (by omega)
  have hQne : Q ≠ [] := by
    intro hq
    rw [hq] at hQlen
    simp at hQlen
    omega
  have hs : s = joinDots Q ++ '.' :: (la ++ '.' :: lb) := by
    rw [← hjoin, hQ, joinDots_append_pair Q la lb hQne]
  have hla : ∀ c ∈ la, c ≠ '.' := by
    intro c hc
    refine hnodot la ?_ c hc
    rw [hQ]
    exact List.mem_append_right _ (by simp)
  have hlb : ∀ c ∈ lb, c ≠ '.' := by
    intro c hc
    refine hnodot lb ?_ c hc
    rw [hQ]
    exact List.mem_append_right _ (by simp)
  refine ⟨joinDots Q, la, lb, hs, ?_, ?_⟩
  · have hbridge := getDomainLoop_eq_dotScan s s.length (Nat.le_refl _) 0
    rw [List.take_length] at hbridge
    have hndla : ∀ c ∈ la.reverse, c ≠ '.' :=
      fun c hc => hla c (List.mem_reverse.mp hc)
    have hndlb : ∀ c ∈ lb.reverse, c ≠ '.' :=
      fun c hc => hlb c (List.mem_reverse.mp hc)
    have hrev : s.reverse =
        lb.reverse ++ ('.' :: (la.reverse ++ '.' :: (joinDots Q).reverse)) := by
      rw [hs]
      simp
    have h4 := dotScan_second_dot (joinDots Q).reverse
    have h3 := dotScan_no_dots la.reverse ('.' :: (joinDots Q).reverse) 1
      (by omega) hndla
    have h2 : dotScan 0 ('.' :: (la.reverse ++ '.' :: (joinDots Q).reverse)) =
        (1 + la.reverse.length + 1, 2) := by
      rw [dotScan_first_dot, h3, h4]
    have h1 := dotScan_no_dots lb.reverse
      ('.' :: (la.reverse ++ '.' :: (joinDots Q).reverse)) 0 (by omega) hndlb
    have hscan : dotScan 0 s.reverse =
        (1 + la.reverse.length + 1 + lb.reverse.length, 2) := by
      rw [hrev, h1, h2]
    have hslen : s.length =
        (joinDots Q).length + 1 + la.length + 1 + lb.length := by
      rw [hs]
      simp
      omega
    have hsub : s.length - (1 + la.reverse.length + 1 + lb.reverse.length) =
        (joinDots Q).length := by
      simp only [List.length_reverse]
      omega
    rw [gdCore, hbridge, hscan]
    rw [if_pos rfl]
    simp only [hsub]
    rw [hs]
    rw [show (joinDots Q).length + 1 = (joinDots Q ++ ['.']).length from by simp]
    rw [show joinDots Q ++ '.' :: (la ++ '.' :: lb) =
        (joinDots Q ++ ['.']) ++ (la ++ '.' :: lb) from by simp]
    exact List.drop_left _ _
  · rw [gdSpecCore, if_neg h, hQ]
    rw [show (Q ++ [la, lb]).length - 2 = Q.length from by simp]
    rw [List.drop_left]
    rfl

/-- The source's `getDomain` body equals the spec's last-two-labels
description on every string. -/
theorem gdCore_eq_spec (s : List Char) : gdCore s = gdSpecCore s := by
  by_cases h : (splitOnDot s).length < 3
  · rw [gdCore_small s h, gdSpecCore, if_pos h]
  · obtain ⟨A, la, lb, _, h1, h2⟩ := gdCore_big s h
    rw [h1, h2]

/-! ### Occurrence counting, for the `getSubDomain` claim -/

/-- Lists with two distinct members have length at least two. -/
theorem two_le_length_of_two_mem {α : Type} {l : List α} {a b : α}
    (ha : a ∈ l) (hb : b ∈ l) (hab : a ≠ b) : 2 ≤ l.length := by
  cases l with
  | nil => simp at ha
  | cons x t =>
      cases t with
      | nil =>
          simp at ha hb
          rw [ha, hb] at hab
          exact absurd rfl hab
      | cons y u =>
          simp only [List.length_cons]
          omega

/-- When the needle occurs exactly once, any two occurrence positions
coincide. -/
theorem occurrence_unique (hay needle : List Char) (hne : needle ≠ [])
    (hcount : countOccurrences hay needle = 1) (p q : Nat)
    (hp : needle.isPrefixOf (hay.drop p) = true)
    (hq : needle.isPrefixOf (hay.drop q) = true) : p = q := by
  by_contra hpq
  have hbound : ∀ r, needle.isPrefixOf (hay.drop r) = true →
      r < hay.length + 1 := by
    intro r hr
    by_contra hge
    push_neg at hge
    have hdropnil : hay.drop r = [] := List.drop_eq_nil_of_le (by omega)
    rw [hdropnil] at hr
    exact hne (List.prefix_nil.mp (List.isPrefixOf_iff_prefix.mp hr))
  have hpmem : p ∈ (List.range (hay.length + 1)).filter
      (fun r => needle.isPrefixOf (hay.drop r)) := by
    rw [List.mem_filter]
    exact ⟨List.mem_range.mpr (hbound p hp), hp⟩
  have hqmem : q ∈ (List.range (hay.length + 1)).filter
      (fun r => needle.isPrefixOf (hay.drop r)) := by
    rw [List.mem_filter]
    exact ⟨List.mem_range.mpr (hbound q hq), hq⟩
  have h2 := two_le_length_of_two_mem hpmem hqmem hpq
  rw [countOccurrences, List.countP_eq_length_filter] at hcount
  omega

/-! ## Claim theorems: domain parser -/

/-- **C3.** `getDomain` strips one trailing dot and returns the last two
dot-separated labels of the stripped string (the whole stripped string when
it has fewer than two dot separators) — stated as equality with the spec's
description `getDomainSpec` for every FQDN — and in particular maps
`"foo.bar.example.com."`, `"example.com."` and `"example.com"` all to
`"example.com"`. -/
theorem getDomain_matches_spec (fqdn : String) :
    getDomain fqdn = getDomainSpec fqdn ∧
    getDomain "foo.bar.example.com." = "example.com" ∧
    getDomain "example.com." = "example.com" ∧
    getDomain "example.com" = "example.com" := by
  refine ⟨?_, by decide, by decide, by decide⟩
  exact congrArg String.mk (gdCore_eq_spec (unFqdnChars fqdn.data))

/-- C4 as literally stated is false: for
`f = "x.example.com.y.example.com."` the registrable domain
`d = "example.com"` differs from `f`, but `".example.com"` first occurs in
the middle of `f`, so `getSubDomain` returns `"x"` and the concatenation
`"x.example.com"` is not the stripped `f`. -/
theorem getSubDomain_concat_counterexample :
    getDomain "x.example.com.y.example.com." = "example.com" ∧
    getDomain "x.example.com.y.example.com." ≠
      "x.example.com.y.example.com." ∧
    getSubDomain (getDomain "x.example.com.y.example.com.")
      "x.example.com.y.example.com." = "x" ∧
    getSubDomain (getDomain "x.example.com.y.example.com.")
          "x.example.com.y.example.com." ++ "." ++
        getDomain "x.example.com.y.example.com." ≠
      unFqdn "x.example.com.y.example.com." := by
  refine ⟨by decide, by decide, by decide, by decide⟩

/-- **C4** (amended).  For every FQDN `f` whose registrable domain
`d = getDomain f` differs from the trailing-separator-stripped `f`, and in
which `"." ++ d` occurs exactly once as a substring of `f`, the
concatenation `getSubDomain d f ++ "." ++ d` equals the
trailing-separator-stripped `f`. -/
theorem getSubDomain_concat
    (f : String)
    (hne : getDomain f ≠ unFqdn f)
    (huniq : countOccurrences f.data ('.' :: (getDomain f).data) = 1) :
    getSubDomain (getDomain f) f ++ "." ++ getDomain f = unFqdn f := by
  obtain ⟨s, hs0⟩ : ∃ s, unFqdnChars f.data = s := ⟨_, rfl⟩
  obtain ⟨d, hd0⟩ : ∃ d, gdCore s = d := ⟨_, rfl⟩
  have hdchars : (getDomain f).data = d := by
    rw [← hd0, ← hs0]
    rfl
  have hdne : d ≠ s := by
    intro h
    apply hne
    apply String.ext
    rw [hdchars, h, ← hs0]
    rfl
  have hbig : ¬ (splitOnDot s).length < 3 := by
    intro hlt
    apply hdne
    rw [← hd0]
    exact gdCore_small s hlt
  obtain ⟨A, la, lb, hsplit, hgd, _⟩ := gdCore_big s hbig
  have hsd : s = A ++ '.' :: d := by
    rw [← hd0, hgd, hsplit]
  have hprefix : s <+: f.data := by
    rw [← hs0, unFqdnChars]
    by_cases hl : f.data.getLast? = some '.'
    · rw [if_pos hl, List.dropLast_eq_take]
      exact List.take_prefix _ _
    · rw [if_neg hl]
  obtain ⟨t, ht⟩ := hprefix
  have hAle : A.length ≤ s.length := by
    rw [hsd]
    simp
  have hsdrop : s.drop A.length = '.' :: d := by
    rw [hsd]
    exact List.drop_left _ _
  have hfdrop : f.data.drop A.length =
      ('.' :: d) ++ t.drop (A.length - s.length) := by
    rw [← ht, List.drop_append_eq_append_drop, hsdrop]
  have hocc : ('.' :: d).isPrefixOf (f.data.drop A.length) = true := by
    rw [hfdrop]
    exact List.isPrefixOf_iff_prefix.mpr (List.prefix_append _ _)
  have hsome := firstIndexOf_isSome_of_occurrence f.data ('.' :: d)
    A.length hocc
  obtain ⟨p, hp⟩ := Option.isSome_iff_exists.mp hsome
  have hoccp := occurrence_of_firstIndexOf f.data ('.' :: d) p hp
  have huniq' : countOccurrences f.data ('.' :: d) = 1 := by
    rw [← hdchars]
    exact huniq
  have hpA : p = A.length :=
    occurrence_unique f.data ('.' :: d) (by simp) huniq' p A.length hoccp hocc
  have htake : f.data.take A.length = A := by
    rw [← ht, List.take_append_eq_append_take]
    rw [show A.length - s.length = 0 from by omega]
    rw [List.take_zero, List.append_nil]
    rw [hsd, List.take_left]
  have hsub : getSubDomainChars d f.data = A := by
    unfold getSubDomainChars
    rw [hp]
    show f.data.take p = A
    rw [hpA]
    exact htake
  apply String.ext
  rw [String.data_append, String.data_append]
  have hgs : (getSubDomain (getDomain f) f).data =
      getSubDomainChars d f.data := by
    rw [← hdchars]
    rfl
  have huf : (unFqdn f).data = s := by
    rw [← hs0]
    rfl
  rw [hgs, hsub, hdchars, huf]
  rw [show ("." : String).data = ['.'] from rfl]
  rw [List.append_assoc]
  exact hsd.symm

/-- Witness for the amended C4 at `f = "foo.bar.example.com."`: the
registrable domain differs from the stripped FQDN, `".example.com"` occurs
exactly once, and the concatenation rebuilds the stripped FQDN. -/
theorem getSubDomain_concat_witness :
    (getDomain "foo.bar.example.com." ≠ unFqdn "foo.bar.example.com.") ∧
    countOccurrences ("foo.bar.example.com." : String).data
      ('.' :: (getDomain "foo.bar.example.com.").data) = 1 ∧
    getSubDomain (getDomain "foo.bar.example.com.") "foo.bar.example.com." ++
        "." ++ getDomain "foo.bar.example.com." =
      unFqdn "foo.bar.example.com." :=
  ⟨by decide, by decide,
    getSubDomain_concat "foo.bar.example.com." (by decide) (by decide)⟩

end DDWebhook
